import Mathlib

/-!
Verification of the reward-divergence plotting code of `evaluating-rewards`.

The development shallowly embeds the three Python source files:
  * `src/evaluating_rewards/analysis/plot_gridworld_divergence.py`
  * `src/evaluating_rewards/analysis/dissimilarity_heatmaps/heatmaps.py`
  * `evaluating_rewards/experiments/visualize.py`

Python floats are modelled as rationals (`ℚ`), pandas series as association
lists, and raised exceptions as `Except String`.  Functions from modules of
the repository that are not part of the provided sources (the `tabular`
distance functions, `serialize.ZERO_REWARD`) are either taken as explicit
parameters or modelled from the specification, as noted at each definition.
-/

set_option maxRecDepth 200000

/-- Error-propagating map over a list, modelling a Python `for` loop whose
body may raise: the first raised exception aborts the whole loop. -/
def mapE {α β : Type} (f : α → Except String β) : List α → Except String (List β)
  | [] => .ok []
  | a :: as =>
    match f a with
    | .error e => .error e
    | .ok b =>
      match mapE f as with
      | .error e => .error e
      | .ok bs => .ok (b :: bs)

/-- Concatenation of a list of lists (row-major flattening of a nested loop). -/
def listJoin {α : Type} : List (List α) → List α
  | [] => []
  | l :: ls => l ++ listJoin ls

/-- Modelled from the spec: the distinguished sentinel name of the Zero
baseline reward, `serialize.ZERO_REWARD` (the `serialize` module is not among
the provided sources; the spec and `plot_gridworld_divergence.py` line 166
identify it as the literal below). -/
def ZERO_REWARD : String := "evaluating_rewards/Zero-v0"

/-- A series keyed by `(source_reward_type, target_reward_type)` with scalar
values, as produced by `compute_divergence` and consumed by the heatmap
helpers. -/
abbrev SeriesST := List ((String × String) × ℚ)

/-- A boolean mask series over the same keys. -/
abbrev MaskST := List ((String × String) × Bool)

namespace GridworldDivergence

/-- The three canonicalization functions of the `tabular` module that
`CANONICAL_DESHAPE_FN` selects between (their bodies are outside the provided
sources, so they appear here only as tags). -/
inductive DeshapeFn where
  | singleton_shaping_canonical_reward
  | fully_connected_random_canonical_reward
  | fully_connected_greedy_canonical_reward
deriving DecidableEq

/-- Embedding of the `CANONICAL_DESHAPE_FN` dictionary of
`plot_gridworld_divergence.py` (lines 153-157). -/
def CANONICAL_DESHAPE_FN : List (String × DeshapeFn) :=
  [("singleton_canonical_distance", .singleton_shaping_canonical_reward),
   ("fully_connected_random_canonical_distance", .fully_connected_random_canonical_reward),
   ("fully_connected_greedy_canonical_distance", .fully_connected_greedy_canonical_reward)]

/-- The distance functions of the external `evaluating_rewards.tabular`
module, which is not among the provided sources.  Following the spec (§4.1)
they are scalar-valued functions of the two rewards, the visitation
distribution, the iteration count and the discount; they are kept abstract
(parameters of the embedding), so the theorems below hold for every possible
behaviour of the `tabular` module.  `R` is the type of 3D reward tensors and
`D` the type of visitation distributions. -/
structure Tabular (R D : Type) where
  epic_distance : R → R → D → ℕ → ℚ → ℚ
  asymmetric_distance : R → R → D → ℕ → ℚ → ℚ
  symmetric_distance : R → R → D → ℕ → ℚ → Bool → ℚ
  canonical_reward_distance : R → R → DeshapeFn → D → ℚ → ℚ

/-- Body of the inner loop of `compute_divergence`
(`plot_gridworld_divergence.py` lines 168-199): the `kind` dispatch computing
one divergence value, raising `ValueError` on an unrecognized `kind`.
`buildDist` abstracts `build_dist` applied to the source's reward and
configuration shape. -/
def divForPair {R D : Type} (T : Tabular R D) (buildDist : String → R → D)
    (discount : ℚ) (kind : String) (src tgt : String × R) : Except String ℚ :=
  let distribution := buildDist src.1 src.2
  if kind = "direct_divergence" then
    .ok (T.epic_distance src.2 tgt.2 distribution 1000 discount)
  else if kind = "asymmetric" then
    .ok (T.asymmetric_distance src.2 tgt.2 distribution 1000 discount)
  else if kind = "symmetric" ∨ kind = "symmetric_min" then
    .ok (T.symmetric_distance src.2 tgt.2 distribution 1000 discount
          (decide (kind = "symmetric_min")))
  else
    match List.lookup kind CANONICAL_DESHAPE_FN with
    | some deshape_fn =>
      .ok (T.canonical_reward_distance src.2 tgt.2 deshape_fn distribution discount)
    | none => .error ("Unrecognized kind '" ++ kind ++ "'")

/-- Embedding of `compute_divergence` (`plot_gridworld_divergence.py` lines
160-205).  `rewards` is the association list `{name: make_reward(cfg,
discount)}` in configuration order; the double loop skips pairs whose target
is the Zero baseline, and the final `DataFrame`/`stack` step lays the filled
entries out row-major as `(source_reward_type, target_reward_type)` keys. -/
def compute_divergence {R D : Type} (T : Tabular R D) (buildDist : String → R → D)
    (rewards : List (String × R)) (discount : ℚ) (kind : String) :
    Except String SeriesST :=
  match mapE (fun src =>
      mapE (fun tgt =>
          match divForPair T buildDist discount kind src tgt with
          | .error e => .error e
          | .ok d => .ok ((src.1, tgt.1), d))
        (rewards.filter (fun tgt => tgt.1 != "evaluating_rewards/Zero-v0")))
      rewards with
  | .error e => .error e
  | .ok rows => .ok (listJoin rows)

/-- The `kind` strings accepted by the dispatch in `compute_divergence`. -/
def recognizedKinds : List String :=
  ["direct_divergence", "asymmetric", "symmetric", "symmetric_min"] ++
    CANONICAL_DESHAPE_FN.map (fun p => p.1)

end GridworldDivergence

/-- A trivial instantiation of the abstract `tabular` distance functions,
used to evaluate the embedding on concrete inputs. -/
def trivTabular : GridworldDivergence.Tabular Unit Unit :=
  { epic_distance := fun _ _ _ _ _ => 1
    asymmetric_distance := fun _ _ _ _ _ => 1
    symmetric_distance := fun _ _ _ _ _ _ => 1
    canonical_reward_distance := fun _ _ _ _ _ => 1 }

/-- A trivial `build_dist` for concrete evaluations. -/
def trivBuildDist : String → Unit → Unit := fun _ _ => ()

namespace Heatmaps

/-- Boolean test that `pat` is an initial segment of `l` (character lists). -/
def leadsWith : List Char → List Char → Bool
  | [], _ => true
  | _ :: _, [] => false
  | a :: as, b :: bs => a == b && leadsWith as bs

/-- Boolean substring test on character lists, modelling Python `pat in s`. -/
def containsSub (pat : List Char) : List Char → Bool
  | [] => leadsWith pat []
  | c :: rest => leadsWith pat (c :: rest) || containsSub pat rest

/-- Python `"seed" in name`, the level-name test of `median_seeds`
(`heatmaps.py` line 128). -/
def hasSeed (name : String) : Bool := containsSub "seed".toList name.toList

/-- A pandas series with an arbitrary named multi-level index: `names` are
the index level names, each entry pairs a key tuple (one label per level)
with a scalar value. -/
structure LSeries where
  names : List String
  entries : List (List String × ℚ)
deriving DecidableEq

/-- Projection of a key tuple onto the index levels named in `non_seeds`
(in the order the levels appear in `names`), as `groupby(non_seeds)` keys. -/
def keyFor (names non_seeds : List String) (key : List String) : List String :=
  ((names.zip key).filter (fun nk => non_seeds.contains nk.1)).map (fun nk => nk.2)

/-- Lexicographic comparison of group-key tuples, matching the ascending
sort that `groupby(..., sort=True)` (the pandas default) applies. -/
def lexLe : List String → List String → Bool
  | [], _ => true
  | _ :: _, [] => false
  | a :: as, b :: bs => if a < b then true else if a = b then lexLe as bs else false

/-- Sorted insertion for `sortKeys`. -/
def insertSortedKey (x : List String) : List (List String) → List (List String)
  | [] => [x]
  | y :: ys => if lexLe x y then x :: y :: ys else y :: insertSortedKey x ys

/-- Insertion sort of group keys by `lexLe`. -/
def sortKeys (l : List (List String)) : List (List String) := l.foldr insertSortedKey []

/-- Helper for `dedupKeys`: drop keys already seen, keep first occurrences. -/
def dedupAux (seen : List (List String)) : List (List String) → List (List String)
  | [] => []
  | x :: xs => if seen.contains x then dedupAux seen xs else x :: dedupAux (x :: seen) xs

/-- First-occurrence deduplication of group keys. -/
def dedupKeys (l : List (List String)) : List (List String) := dedupAux [] l

/-- Sorted insertion for `sortQ`. -/
def insertSortedQ (x : ℚ) : List ℚ → List ℚ
  | [] => [x]
  | y :: ys => if x ≤ y then x :: y :: ys else y :: insertSortedQ x ys

/-- Insertion sort of rational values. -/
def sortQ (l : List ℚ) : List ℚ := l.foldr insertSortedQ []

/-- The statistical median as pandas computes it: middle element of the
sorted values for odd length, mean of the two middle elements for even
length.  (Only applied to non-empty groups.) -/
def median (l : List ℚ) : ℚ :=
  let s := sortQ l
  let n := s.length
  if n % 2 = 1 then s.getD (n / 2) 0
  else (s.getD (n / 2 - 1) 0 + s.getD (n / 2) 0) / 2

/-- Embedding of `median_seeds` (`heatmaps.py` lines 126-132): when some
index level name contains `"seed"`, group by the remaining levels and take
the median of each group; otherwise return the series unchanged.  The
`groupby` call reproduces pandas semantics: group keys are sorted ascending,
the result's index levels are the non-seed levels, and `groupby([])` (every
level a seed level) raises `ValueError("No group keys passed!")`. -/
def median_seeds (series : LSeries) : Except String LSeries :=
  let seeds := series.names.filter (fun n => hasSeed n)
  if seeds.isEmpty then .ok series
  else
    let non_seeds := series.names.filter (fun n => !(seeds.contains n))
    if non_seeds.isEmpty then .error "No group keys passed!"
    else
      let ks := sortKeys (dedupKeys
        (series.entries.map (fun e => keyFor series.names non_seeds e.1)))
      .ok ⟨non_seeds,
        ks.map (fun k =>
          (k, median ((series.entries.filter
                (fun e => keyFor series.names non_seeds e.1 == k)).map (fun e => e.2))))⟩

/-- The label of the index level called `level` inside a key tuple
(`index.get_level_values(level)` for a single entry); `none` when no level
has that name. -/
def levelValue (names : List String) (level : String) (key : List String) : Option String :=
  List.lookup level (names.zip key)

/-- Embedding of `compact` (`heatmaps.py` lines 135-141): median over seed
levels, then, when a `target_reward_type` level exists, drop every entry
whose target is the Zero baseline. -/
def compact (series : LSeries) : Except String LSeries :=
  match median_seeds series with
  | .error e => .error e
  | .ok t =>
    if t.names.contains "target_reward_type" then
      .ok ⟨t.names, t.entries.filter
            (fun e => levelValue t.names "target_reward_type" e.1 != some ZERO_REWARD)⟩
    else .ok t

/-- The `source_reward_type` labels of a two-level series
(`index.get_level_values("source_reward_type")`). -/
def sourceLabels (s : SeriesST) : List String := s.map (fun e => e.1.1)

/-- The `target_reward_type` labels of a two-level series. -/
def targetLabels (s : SeriesST) : List String := s.map (fun e => e.1.2)

/-- Python `set(a) == set(b)` on label lists. -/
def sameSet (a b : List String) : Bool :=
  a.all (fun x => b.contains x) && b.all (fun x => a.contains x)

/-- Level-wise `Series.reindex(index=ord, level=...)`: entries are regrouped
by the projected label in the order given by `ord`, preserving relative
order inside each group.  (This matches pandas when `ord` and the existing
labels have equal sets, which the callers' assertions guarantee.) -/
def reindexLevel (proj : (String × String) × ℚ → String) (ord : List String)
    (s : SeriesST) : SeriesST :=
  match ord with
  | [] => []
  | v :: vs => s.filter (fun e => proj e == v) ++ reindexLevel proj vs s

/-- The `source_order` list built by `compact_heatmaps` (`heatmaps.py` lines
179-182): the caller's order, with the Zero baseline appended when it occurs
among the source labels but was omitted from the order. -/
def adjustedSourceOrder (s : SeriesST) (order : List String) : List String :=
  if (sourceLabels s).contains ZERO_REWARD && !(order.contains ZERO_REWARD) then
    order ++ [ZERO_REWARD]
  else order

/-- Embedding of the explicit-order block of `compact_heatmaps`
(`heatmaps.py` lines 178-191), applied to the (already rewritten and
compacted) dissimilarity series: build `source_order`, assert that both
axis label sets match, then reindex both levels.  A failed `assert` is the
fatal `AssertionError` with the message below. -/
def reorderStep (s : SeriesST) (order : List String) : Except String SeriesST :=
  if !(sameSet (adjustedSourceOrder s order) (sourceLabels s)) then
    .error "reindexing would remove/add elements not just change order"
  else if !(sameSet order (targetLabels s)) then
    .error "reindexing would remove/add elements not just change order"
  else
    .ok (reindexLevel (fun e => e.1.2) order
          (reindexLevel (fun e => e.1.1) (adjustedSourceOrder s order) s))

/-- The series `vals.loc[ZERO_REWARD]` used by normalization: the entries
whose source is the Zero baseline, reindexed by target. -/
def zero_row (vals : SeriesST) : List (String × ℚ) :=
  vals.filterMap (fun e => if e.1.1 == ZERO_REWARD then some (e.1.2, e.2) else none)

/-- The division `vals / vals.loc[ZERO_REWARD]` of `comparison_heatmap`
(`heatmaps.py` line 93): each entry is divided by the Zero-source entry with
the same target.  pandas yields NaN for a target that has no Zero-source
entry; the embedding totalizes that case with `getD 0`, and the theorem
about normalization assumes every target is covered. -/
def div_by_zero_target (vals : SeriesST) : SeriesST :=
  vals.map (fun e => (e.1, e.2 / ((List.lookup e.1.2 (zero_row vals)).getD 0)))

/-- Embedding of `_drop_zero_reward` (`heatmaps.py` lines 47-50): exclude
rows whose `source_reward_type` is the Zero baseline.  (The leading
underscore of the Python name is dropped.) -/
def drop_zero_reward {α : Type} (s : List ((String × String) × α)) :
    List ((String × String) × α) :=
  s.filter (fun e => e.1.1 != ZERO_REWARD)

/-- The `normalize` block of `comparison_heatmap` (`heatmaps.py` lines
92-96): divide by the Zero-source row, then drop Zero-source rows from the
values and, when present, from the mask. -/
def normalize_step (vals : SeriesST) (mask : Option MaskST) : SeriesST × Option MaskST :=
  let vals2 := drop_zero_reward (div_by_zero_target vals)
  (vals2, mask.map (fun m => drop_zero_reward m))

end Heatmaps

namespace Fmt

/-- The decimal digit character for `n < 10`. -/
def digitChar (n : ℕ) : Char := Char.ofNat (48 + n)

/-- Fuel-driven decimal digit list of a natural number (most significant
digit first). -/
def natDigitsAux : ℕ → ℕ → List Char
  | 0, _ => []
  | fuel + 1, n => if n < 10 then [digitChar n] else natDigitsAux fuel (n / 10) ++ [digitChar (n % 10)]

/-- Decimal digit list of a natural number. -/
def natDigits (n : ℕ) : List Char := natDigitsAux (n + 1) n

/-- Round a non-negative rational to the nearest integer, ties to even —
the rounding used when formatting Python floats. -/
def roundHalfEven (r : ℚ) : ℤ :=
  let f : ℤ := ⌊r⌋
  let frac : ℚ := r - (f : ℚ)
  if frac < 1 / 2 then f
  else if 1 / 2 < frac then f + 1
  else if f % 2 = 0 then f else f + 1

/-- Scale a positive rational into `[1, 10)` by powers of ten, returning the
scaled value and the decimal exponent. -/
def norm10 : ℕ → ℚ → ℤ → ℚ × ℤ
  | 0, a, e => (a, e)
  | fuel + 1, a, e =>
    if a < 1 then norm10 fuel (a * 10) (e - 1)
    else if 10 ≤ a then norm10 fuel (a / 10) (e + 1)
    else (a, e)

/-- Model of CPython's `"{:.pe}".format(x)` for a float of exact value `q`:
scientific notation with `p` digits after the point (round half to even) and
a sign-carrying exponent of at least two digits, e.g. `1.23e-02`.  Faithful
whenever the binary double rounds to the same decimal as the exact rational,
which holds at every input used below. -/
def sciChars (q : ℚ) (p : ℕ) : List Char :=
  if q = 0 then
    (if p = 0 then ['0'] else '0' :: '.' :: List.replicate p '0') ++ ['e', '+', '0', '0']
  else
    let a : ℚ := if q < 0 then -q else q
    let fuel := (natDigits a.num.natAbs).length + (natDigits a.den).length + 2
    let ne0 := norm10 fuel a 0
    let mr := roundHalfEven (ne0.1 * (10 : ℚ) ^ p)
    let me1 : ℤ × ℤ := if mr = (10 : ℤ) ^ (p + 1) then ((10 : ℤ) ^ p, ne0.2 + 1) else (mr, ne0.2)
    let ds := natDigits me1.1.toNat
    let mant := match ds with
      | [] => []
      | d :: rest => if p = 0 then [d] else d :: '.' :: rest
    let ea := me1.2.natAbs
    let expd := if ea < 10 then '0' :: natDigits ea else natDigits ea
    (if q < 0 then ['-'] else []) ++ mant ++ 'e' :: (if me1.2 < 0 then '-' else '+') :: expd

/-- Helper for `splitOnChar`; `acc` holds the current chunk reversed. -/
def splitOnCharAux (sep : Char) (acc : List Char) : List Char → List (List Char)
  | [] => [acc.reverse]
  | c :: cs =>
    if c == sep then acc.reverse :: splitOnCharAux sep [] cs
    else splitOnCharAux sep (c :: acc) cs

/-- Python `s.split(sep)` for a one-character separator. -/
def splitOnChar (sep : Char) (l : List Char) : List (List Char) := splitOnCharAux sep [] l

/-- Value of a decimal digit string. -/
def digitsToNat (l : List Char) : ℕ := l.foldl (fun acc c => acc * 10 + (c.toNat - 48)) 0

/-- Python `int(s)` on the exponent strings produced by `format` (optional
sign followed by digits). -/
def pyIntChars (l : List Char) : ℤ :=
  match l with
  | '-' :: ds => -(digitsToNat ds : ℤ)
  | '+' :: ds => (digitsToNat ds : ℤ)
  | ds => (digitsToNat ds : ℤ)

/-- Python `str(i)`/f-string rendering of an integer: minus sign when
negative, no plus sign, no zero padding. -/
def intToChars (i : ℤ) : List Char :=
  if i < 0 then '-' :: natDigits i.natAbs else natDigits i.natAbs

/-- A Python float value: either finite of an exact rational value, or one
of the non-finite values. -/
inductive PyFloat where
  | finite (q : ℚ)
  | nan
  | inf
  | ninf
deriving DecidableEq

/-- Python `"{:.pe}".format(x)` on any float, finite or not: non-finite
values format as their `str` form (`nan`, `inf`, `-inf`). -/
def pyFormatSci (x : PyFloat) (precision : ℕ) : List Char :=
  match x with
  | .finite q => sciChars q precision
  | .nan => "nan".toList
  | .inf => "inf".toList
  | .ninf => "-inf".toList

/-- Embedding of `short_e` from `visualize.py` (lines 109-115): format,
split at `e`, parse the exponent as an `int` and rebuild.  There is no
finiteness guard, so on a non-finite input the split yields a single chunk
and the tuple unpacking raises `ValueError`, modelled as `none`. -/
def visualize_short_e (x : PyFloat) (precision : ℕ) : Option String :=
  match splitOnChar 'e' (pyFormatSci x precision) with
  | [base, expo] => some (String.mk (base ++ 'e' :: intToChars (pyIntChars expo)))
  | _ => none

/-- Embedding of `short_e` from `heatmaps.py` (lines 31-39): identical to
the `visualize.py` version except that non-finite inputs are caught first
and returned as `str(x)`.  The final `none` branch is unreachable for
finite inputs (the formatted string always contains exactly one `e`). -/
def heatmaps_short_e (x : PyFloat) (precision : ℕ) : Option String :=
  match x with
  | .nan => some "nan"
  | .inf => some "inf"
  | .ninf => some "-inf"
  | .finite q =>
    match splitOnChar 'e' (sciChars q precision) with
    | [base, expo] => some (String.mk (base ++ 'e' :: intToChars (pyIntChars expo)))
    | _ => none

end Fmt

namespace Visualize

/-- Python strings handled character-wise. -/
abbrev PyStr := List Char

/-- The observable filesystem effect of one `save_fig` call: the directory
passed to `os.makedirs(..., exist_ok=True)` and the file opened for
writing. -/
structure SaveOp where
  dirMade : PyStr
  fileWritten : PyStr
deriving DecidableEq

/-- Python `name.replace("/", "_")` (single-character pattern). -/
def pyReplaceSlash (name : PyStr) : PyStr := name.map (fun c => if c == '/' then '_' else c)

/-- POSIX `os.path.join(a, b)`: `b` when absolute, otherwise `a` and `b`
with exactly one separator between them. -/
def pyJoin (a b : PyStr) : PyStr :=
  if b.head? = some '/' then b
  else if a = [] then b
  else if a.getLast? = some '/' then a ++ b
  else a ++ '/' :: b

/-- POSIX `os.path.dirname(p)`: everything before the last separator, with
trailing separators stripped unless the result is all separators. -/
def pyDirname (p : PyStr) : PyStr :=
  if (p.reverse.dropWhile (fun c => !(c == '/'))).all (fun c => c == '/') then
    (p.reverse.dropWhile (fun c => !(c == '/'))).reverse
  else
    ((p.reverse.dropWhile (fun c => !(c == '/'))).dropWhile (fun c => c == '/')).reverse

/-- Embedding of `save_fig` (`visualize.py` lines 82-89): append the format
extension, create the enclosing directory, write the figure. -/
def save_fig (path : PyStr) (fmt : PyStr) : SaveOp :=
  { dirMade := pyDirname (path ++ '.' :: fmt), fileWritten := path ++ '.' :: fmt }

/-- Embedding of `save_figs` (`visualize.py` lines 92-98): for each
`(name, figure)` pair, replace `/` by `_` in the name, join with the root
directory and save.  `fmt` is the keyword argument forwarded to `save_fig`,
whose default is `"pdf"`. -/
def save_figs {F : Type} (root_dir : PyStr) (generator : List (PyStr × F))
    (fmt : Option PyStr) : List SaveOp :=
  generator.map (fun nf =>
    save_fig (pyJoin root_dir (pyReplaceSlash nf.1)) (fmt.getD "pdf".toList))

end Visualize

/-! ## Helper lemmas -/

theorem mapE_ok_mem {α β : Type} {f : α → Except String β} {l : List α} {l' : List β}
    (h : mapE f l = .ok l') : ∀ b ∈ l', ∃ a ∈ l, f a = .ok b := by
  induction l generalizing l' with
  | nil =>
    simp only [mapE] at h
    cases h
    simp
  | cons a as ih =>
    simp only [mapE] at h
    cases hfa : f a with
    | error e => rw [hfa] at h; cases h
    | ok b =>
      rw [hfa] at h
      cases hrest : mapE f as with
      | error e => rw [hrest] at h; cases h
      | ok bs =>
        rw [hrest] at h
        cases h
        intro c hc
        rcases List.mem_cons.mp hc with hcb | hcbs
        · exact ⟨a, List.mem_cons_self a as, hcb ▸ hfa⟩
        · obtain ⟨a', ha', hfa'⟩ := ih hrest c hcbs
          exact ⟨a', List.mem_cons_of_mem a ha', hfa'⟩

theorem mapE_ok_of_all {α β : Type} {f : α → Except String β} {l : List α}
    (h : ∀ a ∈ l, ∃ b, f a = .ok b) : ∃ l', mapE f l = .ok l' := by
  induction l with
  | nil => exact ⟨[], rfl⟩
  | cons a as ih =>
    obtain ⟨b, hb⟩ := h a (List.mem_cons_self a as)
    obtain ⟨bs, hbs⟩ := ih (fun a' ha' => h a' (List.mem_cons_of_mem a ha'))
    exact ⟨b :: bs, by simp only [mapE, hb, hbs]⟩

theorem mapE_error_of_all {α β : Type} {f : α → Except String β} {l : List α} {e : String}
    (hne : l ≠ []) (h : ∀ a ∈ l, f a = .error e) : mapE f l = .error e := by
  cases l with
  | nil => exact absurd rfl hne
  | cons a as => simp only [mapE, h a (List.mem_cons_self a as)]

theorem mem_listJoin {α : Type} {a : α} {ls : List (List α)} :
    a ∈ listJoin ls ↔ ∃ l ∈ ls, a ∈ l := by
  induction ls with
  | nil => simp [listJoin]
  | cons l ls ih =>
    simp only [listJoin, List.mem_append, ih, List.mem_cons]
    constructor
    · rintro (h | ⟨l', hl', hal'⟩)
      · exact ⟨l, Or.inl rfl, h⟩
      · exact ⟨l', Or.inr hl', hal'⟩
    · rintro ⟨l', hl' | hl', hal'⟩
      · exact Or.inl (hl' ▸ hal')
      · exact Or.inr ⟨l', hl', hal'⟩

theorem containsStr_iff {l : List String} {x : String} : l.contains x = true ↔ x ∈ l := by
  simp [List.contains, List.elem_iff]

/-! ## Claim C1 -/

namespace GridworldDivergence

/-- Claim C1: for every reward configuration mapping, discount and kind, the
series returned by `compute_divergence` contains no entry whose
`target_reward_type` is the Zero baseline name. -/
theorem compute_divergence_no_zero_target {R D : Type} (T : Tabular R D)
    (buildDist : String → R → D) (rewards : List (String × R)) (discount : ℚ)
    (kind : String) (s : SeriesST)
    (h : compute_divergence T buildDist rewards discount kind = .ok s) :
    ∀ p ∈ s, p.1.2 ≠ ZERO_REWARD := by
  intro p hp
  unfold compute_divergence at h
  split at h
  · cases h
  next rows heq =>
    cases h
    obtain ⟨row, hrowmem, hprow⟩ := mem_listJoin.mp hp
    obtain ⟨src, _, hrow⟩ := mapE_ok_mem heq row hrowmem
    obtain ⟨tgt, htgt, hentry⟩ := mapE_ok_mem hrow p hprow
    have htz : tgt.1 ≠ "evaluating_rewards/Zero-v0" := by
      have := (List.mem_filter.mp htgt).2
      simpa using this
    cases hd : divForPair T buildDist discount kind src tgt with
    | error e => rw [hd] at hentry; cases hentry
    | ok d =>
      rw [hd] at hentry
      cases hentry
      exact htz

/-- Witness for C1 at a concrete input: the single entry of the series
computed for the one-configuration mapping has a non-Zero target. -/
theorem compute_divergence_no_zero_target_witness :
    ((("A" : String), ("A" : String)), (1 : ℚ)).1.2 ≠ ZERO_REWARD :=
  compute_divergence_no_zero_target trivTabular trivBuildDist [("A", ())] (99 / 100)
    "direct_divergence" [(("A", "A"), 1)] rfl ((("A", "A"), 1)) (by decide)

end GridworldDivergence

/-! ## Claim C2 -/

namespace GridworldDivergence

/-- Counterexample to claim C2 as stated: with configurations named `A` and
the Zero baseline, `compute_divergence` at discount `0.9` and kind
`direct_divergence` returns a series with TWO entries, including one keyed
`(Zero, A)` — the Zero baseline is excluded only as a target, not as a
source.  (Distances instantiated with the constant-1 `trivTabular`.) -/
theorem compute_divergence_zero_source_counterexample :
    compute_divergence trivTabular trivBuildDist
        [("A", ()), ("evaluating_rewards/Zero-v0", ())] (9 / 10) "direct_divergence" =
      .ok [(("A", "A"), 1), (("evaluating_rewards/Zero-v0", "A"), 1)] := rfl

/-- Claim C2 (amended): for the configurations `A` and Zero, whatever the
reward tensors and distance functions, the returned series has exactly the
two keys `(A, A)` and `(Zero, A)` — in particular no `(A, Zero)` entry and
no entry whose target is Zero. -/
theorem compute_divergence_zero_source_keys {R D : Type} (T : Tabular R D)
    (buildDist : String → R → D) (a z : R) :
    (compute_divergence T buildDist [("A", a), ("evaluating_rewards/Zero-v0", z)]
        (9 / 10) "direct_divergence").map (fun l => l.map (fun e => e.1)) =
      .ok [("A", "A"), ("evaluating_rewards/Zero-v0", "A")] := rfl

end GridworldDivergence

/-! ## Claim C4 -/

namespace GridworldDivergence

theorem divForPair_ok_of_recognized {R D : Type} (T : Tabular R D) (bd : String → R → D)
    (discount : ℚ) {kind : String} (h : kind ∈ recognizedKinds) (src tgt : String × R) :
    ∃ d, divForPair T bd discount kind src tgt = .ok d := by
  simp only [recognizedKinds, CANONICAL_DESHAPE_FN, List.map, List.mem_append,
    List.mem_cons, List.not_mem_nil, or_false, or_assoc] at h
  rcases h with h | h | h | h | h | h | h <;> subst h <;> exact ⟨_, rfl⟩

theorem divForPair_error_of_unrecognized {R D : Type} (T : Tabular R D) (bd : String → R → D)
    (discount : ℚ) {kind : String} (h : kind ∉ recognizedKinds) (src tgt : String × R) :
    divForPair T bd discount kind src tgt =
      .error ("Unrecognized kind '" ++ kind ++ "'") := by
  simp only [recognizedKinds, CANONICAL_DESHAPE_FN, List.map, List.mem_append,
    List.mem_cons, List.not_mem_nil, or_false, or_assoc, not_or] at h
  obtain ⟨h1, h2, h3, h4, h5, h6, h7⟩ := h
  unfold divForPair
  rw [if_neg h1, if_neg h2, if_neg (not_or.mpr ⟨h3, h4⟩)]
  have hlook : List.lookup kind CANONICAL_DESHAPE_FN = none := by
    simp only [CANONICAL_DESHAPE_FN, List.lookup,
      show (kind == "singleton_canonical_distance") = false from beq_eq_false_iff_ne.mpr h5,
      show (kind == "fully_connected_random_canonical_distance") = false from
        beq_eq_false_iff_ne.mpr h6,
      show (kind == "fully_connected_greedy_canonical_distance") = false from
        beq_eq_false_iff_ne.mpr h7]
  rw [hlook]

/-- Claim C4 (amended): whenever the configuration mapping contains at least
one name other than the Zero baseline, an unrecognized `kind` makes
`compute_divergence` raise a `ValueError` whose message names the offending
kind; a recognized `kind` never raises it. -/
theorem compute_divergence_kind_spec {R D : Type} (T : Tabular R D) (bd : String → R → D)
    (rewards : List (String × R)) (discount : ℚ) (kind : String) :
    (kind ∉ recognizedKinds → (∃ r ∈ rewards, r.1 ≠ "evaluating_rewards/Zero-v0") →
      compute_divergence T bd rewards discount kind =
        .error ("Unrecognized kind '" ++ kind ++ "'")) ∧
    (kind ∈ recognizedKinds →
      ∃ s, compute_divergence T bd rewards discount kind = .ok s) := by
  constructor
  · rintro hk ⟨r, hr, hrz⟩
    have hrewne : rewards ≠ [] := fun h0 => by rw [h0] at hr; cases hr
    have htne : rewards.filter (fun tgt => tgt.1 != "evaluating_rewards/Zero-v0") ≠ [] := by
      intro hemp
      have hmem : r ∈ rewards.filter (fun tgt => tgt.1 != "evaluating_rewards/Zero-v0") :=
        List.mem_filter.mpr ⟨hr, by simpa using hrz⟩
      rw [hemp] at hmem
      cases hmem
    have hinner : ∀ src ∈ rewards,
        mapE (fun tgt =>
            match divForPair T bd discount kind src tgt with
            | .error e => .error e
            | .ok d => .ok ((src.1, tgt.1), d))
          (rewards.filter (fun tgt => tgt.1 != "evaluating_rewards/Zero-v0")) =
          .error ("Unrecognized kind '" ++ kind ++ "'") := by
      intro src _
      apply mapE_error_of_all htne
      intro tgt _
      rw [divForPair_error_of_unrecognized T bd discount hk src tgt]
    have houter := mapE_error_of_all hrewne hinner
    unfold compute_divergence
    rw [houter]
  · intro hk
    have hall : ∀ src ∈ rewards, ∃ row,
        mapE (fun tgt =>
            match divForPair T bd discount kind src tgt with
            | .error e => .error e
            | .ok d => .ok ((src.1, tgt.1), d))
          (rewards.filter (fun tgt => tgt.1 != "evaluating_rewards/Zero-v0")) = .ok row := by
      intro src _
      apply mapE_ok_of_all
      intro tgt _
      obtain ⟨d, hd⟩ := divForPair_ok_of_recognized T bd discount hk src tgt
      exact ⟨((src.1, tgt.1), d), by rw [hd]⟩
    obtain ⟨rows, hrows⟩ := mapE_ok_of_all hall
    refine ⟨listJoin rows, ?_⟩
    unfold compute_divergence
    rw [hrows]

/-- Counterexample to claim C4 as stated: on the empty configuration mapping
the kind dispatch is never reached, so an unrecognized kind raises nothing
and the empty series is returned. -/
theorem compute_divergence_empty_counterexample :
    compute_divergence trivTabular trivBuildDist [] (99 / 100) "bogus" = .ok [] := rfl

/-- Witness for C4 at a concrete input: one non-Zero configuration and an
unrecognized kind produce the descriptive error. -/
theorem compute_divergence_kind_spec_witness :
    compute_divergence trivTabular trivBuildDist [("A", ())] (99 / 100) "bogus" =
      .error "Unrecognized kind 'bogus'" :=
  (compute_divergence_kind_spec trivTabular trivBuildDist [("A", ())] (99 / 100) "bogus").1
    (by decide) ⟨("A", ()), by simp, by decide⟩

end GridworldDivergence

/-! ## Claims C3 and C10 -/

namespace Heatmaps

theorem sameSet_mem_right {a b : List String} (h : sameSet a b = true) {x : String}
    (hx : x ∈ b) : x ∈ a := by
  unfold sameSet at h
  rw [Bool.and_eq_true] at h
  exact containsStr_iff.mp (List.all_eq_true.mp h.2 x hx)

theorem mem_of_mem_reindexLevel {proj : (String × String) × ℚ → String} {ord : List String}
    {s : SeriesST} {e : (String × String) × ℚ} (h : e ∈ reindexLevel proj ord s) : e ∈ s := by
  induction ord with
  | nil => cases h
  | cons v vs ih =>
    simp only [reindexLevel, List.mem_append] at h
    rcases h with h | h
    · exact (List.mem_filter.mp h).1
    · exact ih h

theorem reindexLevel_skip_filter {proj : (String × String) × ℚ → String} {v : String}
    {vs : List String} (s : SeriesST) (hnv : v ∉ vs) :
    reindexLevel proj vs (s.filter (fun e => !(proj e == v))) = reindexLevel proj vs s := by
  induction vs with
  | nil => rfl
  | cons u us ih =>
    have hne : u ≠ v := fun hh => hnv (hh ▸ List.mem_cons_self u us)
    simp only [reindexLevel]
    have hfe : (s.filter (fun e => !(proj e == v))).filter (fun e => proj e == u) =
        s.filter (fun e => proj e == u) := by
      rw [List.filter_filter]
      apply List.filter_congr
      intro e _
      cases hpe : proj e == u with
      | false => simp [hpe]
      | true =>
        have : proj e = u := eq_of_beq hpe
        simp [hpe, this, hne]
    rw [hfe, ih (fun hh => hnv (List.mem_cons_of_mem u hh))]

theorem reindexLevel_perm {proj : (String × String) × ℚ → String} :
    ∀ (ord : List String) (s : SeriesST), ord.Nodup → (∀ e ∈ s, proj e ∈ ord) →
      List.Perm (reindexLevel proj ord s) s := by
  intro ord
  induction ord with
  | nil =>
    intro s _ hcov
    cases s with
    | nil => exact List.Perm.refl _
    | cons e es => exact absurd (hcov e (List.mem_cons_self e es)) (List.not_mem_nil _)
  | cons v vs ih =>
    intro s hnd hcov
    have hnv : v ∉ vs := (List.nodup_cons.mp hnd).1
    have hvs : vs.Nodup := (List.nodup_cons.mp hnd).2
    simp only [reindexLevel]
    have hsplit : List.Perm
        (s.filter (fun e => proj e == v) ++ s.filter (fun e => !(proj e == v))) s :=
      List.filter_append_perm _ s
    have hcov' : ∀ e ∈ s.filter (fun e => !(proj e == v)), proj e ∈ vs := by
      intro e he
      have hm := List.mem_filter.mp he
      rcases List.mem_cons.mp (hcov e hm.1) with h | h
      · exfalso
        have := hm.2
        rw [h] at this
        simp at this
      · exact h
    have hrest : List.Perm (reindexLevel proj vs s) (s.filter (fun e => !(proj e == v))) := by
      rw [← reindexLevel_skip_filter s hnv]
      exact ih (s.filter (fun e => !(proj e == v))) hvs hcov'
    exact (hrest.append_left _).trans hsplit

/-- Claim C3 (amended): the ordering step of `compact_heatmaps` succeeds
exactly when the caller's order matches the target labels as a set and the
Zero-adjusted source order (the order, with Zero appended when the series
has a Zero source that the order omits) matches the source labels as a set;
failure is the fatal `AssertionError`.  On success with a duplicate-free
order the result holds exactly the same entries, merely permuted. -/
theorem reorderStep_spec (s : SeriesST) (order : List String) :
    ((∃ t, reorderStep s order = .ok t) ↔
      (sameSet (adjustedSourceOrder s order) (sourceLabels s) = true ∧
        sameSet order (targetLabels s) = true)) ∧
    (order.Nodup → ∀ t, reorderStep s order = .ok t → List.Perm t s) := by
  constructor
  · constructor
    · rintro ⟨t, ht⟩
      unfold reorderStep at ht
      cases h1 : sameSet (adjustedSourceOrder s order) (sourceLabels s) with
      | false => rw [h1] at ht; simp at ht
      | true =>
        cases h2 : sameSet order (targetLabels s) with
        | false => rw [h1, h2] at ht; simp at ht
        | true => exact ⟨rfl, rfl⟩
    · rintro ⟨h1, h2⟩
      refine ⟨reindexLevel (fun e => e.1.2) order
        (reindexLevel (fun e => e.1.1) (adjustedSourceOrder s order) s), ?_⟩
      unfold reorderStep
      rw [h1, h2]
      rfl
  · intro hnd t ht
    unfold reorderStep at ht
    cases h1 : sameSet (adjustedSourceOrder s order) (sourceLabels s) with
    | false => rw [h1] at ht; simp at ht
    | true =>
      cases h2 : sameSet order (targetLabels s) with
      | false => rw [h1, h2] at ht; simp at ht
      | true =>
        rw [h1, h2] at ht
        simp only [Bool.not_true, Bool.false_eq_true, if_false] at ht
        cases ht
        have hasnd : (adjustedSourceOrder s order).Nodup := by
          unfold adjustedSourceOrder
          split
          next hcond =>
            have hzno : ZERO_REWARD ∉ order := by
              rw [Bool.and_eq_true] at hcond
              have := hcond.2
              intro hmem
              rw [containsStr_iff.mpr hmem] at this
              cases this
            exact List.Nodup.append hnd (List.nodup_singleton _)
              (fun x hx hx' => hzno (by
                rcases List.mem_cons.mp hx' with h | h
                · exact h ▸ hx
                · cases h))
          next => exact hnd
        have hscov : ∀ e ∈ s, e.1.1 ∈ adjustedSourceOrder s order := fun e he =>
          sameSet_mem_right h1 (List.mem_map_of_mem _ he)
        have hp1 : List.Perm
            (reindexLevel (fun e => e.1.1) (adjustedSourceOrder s order) s) s :=
          reindexLevel_perm _ s hasnd hscov
        have htcov : ∀ e ∈ reindexLevel (fun e => e.1.1) (adjustedSourceOrder s order) s,
            e.1.2 ∈ order := fun e he =>
          sameSet_mem_right h2 (List.mem_map_of_mem _ (mem_of_mem_reindexLevel he))
        have hp2 := reindexLevel_perm order _ hnd htcov
        exact hp2.trans hp1

/-- Counterexample to claim C3 as stated: an order list omitting the Zero
baseline is NOT a permutation of the source labels `{Zero, A}`, yet the
operation succeeds rather than failing fatally (Zero is silently appended to
the source order). -/
theorem reorderStep_counterexample :
    reorderStep [(("evaluating_rewards/Zero-v0", "A"), 1), (("A", "A"), 2)] ["A"] =
      .ok [(("A", "A"), 2), (("evaluating_rewards/Zero-v0", "A"), 1)] := rfl

/-- Witness for C3 at a concrete input: a genuine permutation order is
accepted and permutes the entries. -/
theorem reorderStep_spec_witness :
    List.Perm [((("A" : String), ("B" : String)), (1 : ℚ)), (("B", "A"), 2)]
      [((("A" : String), ("B" : String)), (1 : ℚ)), (("B", "A"), 2)] :=
  (reorderStep_spec [(("A", "B"), 1), (("B", "A"), 2)] ["B", "A"]).2 (by decide) _ rfl

/-- Claim C10: when the Zero baseline occurs among the source labels but is
omitted from the explicit order, `compact_heatmaps`'s ordering step does not
fail: Zero is silently appended to the end of the source-axis order, while
the target axis still requires an exact set match with the given order. -/
theorem reorderStep_zero_append_spec (s : SeriesST) (order : List String)
    (hz : ZERO_REWARD ∈ sourceLabels s) (hzo : ZERO_REWARD ∉ order)
    (hs : sameSet (order ++ [ZERO_REWARD]) (sourceLabels s) = true) :
    (sameSet order (targetLabels s) = true →
      reorderStep s order = .ok (reindexLevel (fun e => e.1.2) order
        (reindexLevel (fun e => e.1.1) (order ++ [ZERO_REWARD]) s))) ∧
    (sameSet order (targetLabels s) = false →
      reorderStep s order = .error "reindexing would remove/add elements not just change order") := by
  have hadj : adjustedSourceOrder s order = order ++ [ZERO_REWARD] := by
    unfold adjustedSourceOrder
    rw [if_pos]
    rw [containsStr_iff.mpr hz]
    cases hc : List.contains order ZERO_REWARD with
    | false => rfl
    | true => exact absurd (containsStr_iff.mp hc) hzo
  constructor
  · intro h2
    unfold reorderStep
    rw [hadj, hs, h2]
    rfl
  · intro h2
    unfold reorderStep
    rw [hadj, hs, h2]
    rfl

/-- Witness for C10 at a concrete input. -/
theorem reorderStep_zero_append_witness :
    reorderStep [(("evaluating_rewards/Zero-v0", "A"), 5), (("A", "A"), 7)] ["A"] =
      .ok [(("A", "A"), 7), (("evaluating_rewards/Zero-v0", "A"), 5)] := by
  have h := (reorderStep_zero_append_spec
      [(("evaluating_rewards/Zero-v0", "A"), 5), (("A", "A"), 7)] ["A"]
      (by decide) (by decide) (by decide)).1 (by decide)
  rw [h]
  rfl

end Heatmaps

/-! ## Claim C5 -/

namespace Heatmaps

theorem lookup_zip_none {names : List String} {n : String} (h : n ∉ names) :
    ∀ key : List String, List.lookup n (names.zip key) = none := by
  induction names with
  | nil => intro key; rfl
  | cons m ms ih =>
    intro key
    cases key with
    | nil => rfl
    | cons c cs =>
      have hnm : n ≠ m := fun hh => h (hh ▸ List.mem_cons_self m ms)
      simp only [List.zip_cons_cons, List.lookup,
        show (n == m) = false from beq_eq_false_iff_ne.mpr hnm]
      exact ih (fun hh => h (List.mem_cons_of_mem m hh)) cs

/-- Claim C5: `median_seeds` leaves a series without seed levels unchanged;
with seed levels present (and at least one non-seed level) it aggregates to
a series indexed by exactly the non-seed levels, in order; and `compact` is
`median_seeds` followed by removal of exactly the entries whose
`target_reward_type` is the Zero baseline (a no-op when that level is
absent). -/
theorem compact_spec (s : LSeries) :
    ((∀ n ∈ s.names, hasSeed n = false) → median_seeds s = .ok s) ∧
    ((∃ n ∈ s.names, hasSeed n = true) → (∃ m ∈ s.names, hasSeed m = false) →
      ∃ t, median_seeds s = .ok t ∧
        t.names = s.names.filter (fun n => !(hasSeed n))) ∧
    (∀ t, median_seeds s = .ok t →
      compact s = .ok ⟨t.names, t.entries.filter
        (fun e => levelValue t.names "target_reward_type" e.1 != some ZERO_REWARD)⟩) := by
  refine ⟨?_, ?_, ?_⟩
  · intro hall
    have hseeds : s.names.filter (fun n => hasSeed n) = [] :=
      List.filter_eq_nil_iff.mpr (fun n hn => by rw [hall n hn]; exact Bool.false_ne_true)
    unfold median_seeds
    rw [hseeds]
    rfl
  · rintro ⟨n, hn, hns⟩ ⟨m, hm, hms⟩
    have hnmem : n ∈ s.names.filter (fun n => hasSeed n) := List.mem_filter.mpr ⟨hn, hns⟩
    have hseedsne : (s.names.filter (fun n => hasSeed n)).isEmpty = false := by
      cases hfil : s.names.filter (fun n => hasSeed n) with
      | nil => rw [hfil] at hnmem; cases hnmem
      | cons a as => rfl
    have hmnon : m ∈ s.names.filter
        (fun x => !((s.names.filter (fun n => hasSeed n)).contains x)) := by
      refine List.mem_filter.mpr ⟨hm, ?_⟩
      cases hc : (s.names.filter (fun n => hasSeed n)).contains m with
      | false => rfl
      | true =>
        have := (List.mem_filter.mp (containsStr_iff.mp hc)).2
        rw [hms] at this
        cases this
    have hnonne : (s.names.filter
        (fun x => !((s.names.filter (fun n => hasSeed n)).contains x))).isEmpty = false := by
      cases hfil : s.names.filter
          (fun x => !((s.names.filter (fun n => hasSeed n)).contains x)) with
      | nil => rw [hfil] at hmnon; cases hmnon
      | cons a as => rfl
    have hnames : s.names.filter
        (fun x => !((s.names.filter (fun n => hasSeed n)).contains x)) =
        s.names.filter (fun n => !(hasSeed n)) := by
      apply List.filter_congr
      intro x hx
      cases hsx : hasSeed x with
      | true =>
        rw [containsStr_iff.mpr (List.mem_filter.mpr ⟨hx, hsx⟩)]
      | false =>
        cases hc : (s.names.filter (fun n => hasSeed n)).contains x with
        | false => rfl
        | true =>
          have := (List.mem_filter.mp (containsStr_iff.mp hc)).2
          rw [hsx] at this
          cases this
    simp only [median_seeds, hseedsne, Bool.false_eq_true, if_false, hnonne]
    exact ⟨_, rfl, hnames⟩
  · intro t ht
    have hstep : compact s =
        (if t.names.contains "target_reward_type" = true then
          Except.ok ⟨t.names, t.entries.filter
            (fun e => levelValue t.names "target_reward_type" e.1 != some ZERO_REWARD)⟩
        else Except.ok t) := by
      unfold compact
      rw [ht]
    rw [hstep]
    cases hc : t.names.contains "target_reward_type" with
    | true => rfl
    | false =>
      have hmem : "target_reward_type" ∉ t.names := fun hmem => by
        rw [containsStr_iff.mpr hmem] at hc
        cases hc
      have hfid : t.entries.filter
          (fun e => levelValue t.names "target_reward_type" e.1 != some ZERO_REWARD) =
          t.entries := by
        apply List.filter_eq_self.mpr
        intro e _
        rw [levelValue, lookup_zip_none hmem]
        rfl
      rw [if_neg Bool.false_ne_true, hfid]

/-- Counterexample to claim C5 as stated: on a series whose every index
level is a seed level, `compact` does not take a median — the underlying
`groupby([])` raises `ValueError("No group keys passed!")`, so no series is
returned at all. -/
theorem compact_all_seed_counterexample :
    compact ⟨["seed"], [(["0"], 1), (["1"], 3)]⟩ = .error "No group keys passed!" := rfl

/-- Witness for C5 at a concrete input: a series with a target level, a seed
level and a Zero-target entry is aggregated over the seed level and the
Zero-target median entry is dropped. -/
theorem compact_spec_witness :
    median_seeds ⟨["source_reward_type", "target_reward_type"], [(["A", "B"], 5)]⟩ =
      .ok ⟨["source_reward_type", "target_reward_type"], [(["A", "B"], 5)]⟩ ∧
    compact ⟨["target_reward_type", "xseedy"],
        [(["evaluating_rewards/Zero-v0", "0"], 1), (["B", "0"], 2), (["B", "1"], 4)]⟩ =
      .ok ⟨["target_reward_type"], [(["B"], 3)]⟩ := by
  constructor
  · exact (compact_spec ⟨["source_reward_type", "target_reward_type"],
      [(["A", "B"], 5)]⟩).1 (by decide)
  · have h := (compact_spec ⟨["target_reward_type", "xseedy"],
      [(["evaluating_rewards/Zero-v0", "0"], 1), (["B", "0"], 2), (["B", "1"], 4)]⟩).2.2
      ⟨["target_reward_type"], [(["B"], 3), (["evaluating_rewards/Zero-v0"], 1)]⟩
      (by with_unfolding_all rfl)
    rw [h]
    with_unfolding_all rfl

end Heatmaps

/-! ## Claim C6 -/

namespace Heatmaps

theorem lookup_mem {α β : Type} [BEq α] [LawfulBEq α] {k : α} {v : β} :
    ∀ {l : List (α × β)}, List.lookup k l = some v → (k, v) ∈ l := by
  intro l
  induction l with
  | nil => intro h; cases h
  | cons p ps ih =>
    intro h
    cases p with
    | mk k' v' =>
      rw [List.lookup] at h
      cases hb : k == k' with
      | true =>
        rw [hb] at h
        cases h
        have : k = k' := eq_of_beq hb
        subst this
        exact List.mem_cons_self _ _
      | false =>
        rw [hb] at h
        exact List.mem_cons_of_mem _ (ih h)

theorem zero_row_mem {vals : SeriesST} {t : String} {z : ℚ}
    (h : (t, z) ∈ zero_row vals) : ((ZERO_REWARD, t), z) ∈ vals := by
  unfold zero_row at h
  obtain ⟨⟨⟨s1, s2⟩, v⟩, he, hfe⟩ := List.mem_filterMap.mp h
  by_cases hb : s1 = ZERO_REWARD
  · subst hb
    simp only [beq_self_eq_true, if_true, Option.some.injEq, Prod.mk.injEq] at hfe
    rw [← hfe.1, ← hfe.2]
    exact he
  · simp [hb] at hfe

theorem filter_map_key (g : (String × String) × ℚ → ℚ) :
    ∀ l : SeriesST,
      (l.map (fun e => (e.1, g e))).filter (fun e => e.1.1 != ZERO_REWARD) =
        (l.filter (fun e => e.1.1 != ZERO_REWARD)).map (fun e => (e.1, g e)) := by
  intro l
  induction l with
  | nil => rfl
  | cons e es ih =>
    simp only [List.map_cons, List.filter_cons]
    cases hb : e.1.1 != ZERO_REWARD with
    | false => rw [if_neg Bool.false_ne_true, if_neg Bool.false_ne_true, ih]
    | true => rw [if_pos rfl, if_pos rfl, List.map_cons, ih]

/-- Claim C6: with `normalize=True`, `comparison_heatmap` divides every
entry `(source, target)` by the `(Zero, target)` entry for the same target
and then removes the Zero-source rows from the values and, when supplied,
from the mask.  `hcov` states the implicit premise that every target of the
series has a Zero-source entry (otherwise pandas produces NaN cells). -/
theorem comparison_heatmap_normalize_spec (vals : SeriesST) (mask : Option MaskST)
    (hcov : ∀ e ∈ vals, (List.lookup e.1.2 (zero_row vals)).isSome = true) :
    (normalize_step vals mask).1 =
      (vals.filter (fun e => e.1.1 != ZERO_REWARD)).map
        (fun e => (e.1, e.2 / ((List.lookup e.1.2 (zero_row vals)).getD 0))) ∧
    (∀ e ∈ vals, e.1.1 ≠ ZERO_REWARD →
      ∃ z, List.lookup e.1.2 (zero_row vals) = some z ∧
        ((ZERO_REWARD, e.1.2), z) ∈ vals ∧
        (e.1, e.2 / z) ∈ (normalize_step vals mask).1) ∧
    (normalize_step vals mask).2 =
      mask.map (fun m => m.filter (fun e => e.1.1 != ZERO_REWARD)) := by
  have h1 : (normalize_step vals mask).1 =
      (vals.filter (fun e => e.1.1 != ZERO_REWARD)).map
        (fun e => (e.1, e.2 / ((List.lookup e.1.2 (zero_row vals)).getD 0))) := by
    unfold normalize_step drop_zero_reward div_by_zero_target
    exact filter_map_key _ vals
  refine ⟨h1, ?_, rfl⟩
  intro e he hez
  cases hz : List.lookup e.1.2 (zero_row vals) with
  | none =>
    have hce := hcov e he
    rw [hz] at hce
    exact absurd hce (by simp)
  | some z =>
    refine ⟨z, rfl, zero_row_mem (lookup_mem hz), ?_⟩
    rw [h1]
    have hmem : e ∈ vals.filter (fun e => e.1.1 != ZERO_REWARD) :=
      List.mem_filter.mpr ⟨he, by simpa using hez⟩
    have hthis := List.mem_map_of_mem
      (fun e => (e.1, e.2 / ((List.lookup e.1.2 (zero_row vals)).getD 0))) hmem
    simpa only [hz, Option.getD_some] using hthis

/-- Witness for C6 at a concrete input. -/
theorem comparison_heatmap_normalize_witness :
    (normalize_step [(("evaluating_rewards/Zero-v0", "A"), 2), (("B", "A"), 6)]
        (some [(("evaluating_rewards/Zero-v0", "A"), true), (("B", "A"), false)])).1 =
      [(("B", "A"), 3)] ∧
    (normalize_step [(("evaluating_rewards/Zero-v0", "A"), 2), (("B", "A"), 6)]
        (some [(("evaluating_rewards/Zero-v0", "A"), true), (("B", "A"), false)])).2 =
      some [(("B", "A"), false)] := by
  have h := comparison_heatmap_normalize_spec
    [(("evaluating_rewards/Zero-v0", "A"), 2), (("B", "A"), 6)]
    (some [(("evaluating_rewards/Zero-v0", "A"), true), (("B", "A"), false)])
    (by with_unfolding_all decide)
  constructor
  · rw [h.1]
    with_unfolding_all decide
  · rw [h.2.2]
    rfl

end Heatmaps

/-! ## Claims C7 and C9 -/

namespace Fmt

/-- Claim C7: both `short_e` implementations format `0.0123` at precision 2
as exactly `"1.23e-2"` — lowercase `e`, no leading zero in the exponent, no
explicit plus sign.  (`0.0123` is modelled by its decimal value; the nearest
binary double formats to the same `"1.23e-02"` under `"{:.2e}"`.) -/
theorem short_e_example :
    heatmaps_short_e (.finite (123 / 10000)) 2 = some "1.23e-2" ∧
      visualize_short_e (.finite (123 / 10000)) 2 = some "1.23e-2" := by
  constructor
  · with_unfolding_all decide
  · with_unfolding_all decide

/-- Claim C9: on every finite input the two `short_e` implementations return
the same result; on non-finite inputs the `heatmaps.py` version is total and
returns `str(x)` while the `visualize.py` version raises (no string). -/
theorem short_e_refinement :
    (∀ (q : ℚ) (p : ℕ), visualize_short_e (.finite q) p = heatmaps_short_e (.finite q) p) ∧
    (∀ p : ℕ, heatmaps_short_e .nan p = some "nan" ∧ visualize_short_e .nan p = none) ∧
    (∀ p : ℕ, heatmaps_short_e .inf p = some "inf" ∧ visualize_short_e .inf p = none) ∧
    (∀ p : ℕ, heatmaps_short_e .ninf p = some "-inf" ∧ visualize_short_e .ninf p = none) :=
  ⟨fun _ _ => rfl, fun _ => ⟨rfl, rfl⟩, fun _ => ⟨rfl, rfl⟩, fun _ => ⟨rfl, rfl⟩⟩

end Fmt

/-! ## Claim C8 -/

namespace Visualize

theorem pyReplaceSlash_no_slash (name : PyStr) : '/' ∉ pyReplaceSlash name := by
  intro h
  simp only [pyReplaceSlash, List.mem_map] at h
  obtain ⟨c, _, hc⟩ := h
  by_cases hcc : (c == '/') = true
  · rw [if_pos hcc] at hc
    cases hc
  · rw [if_neg hcc] at hc
    exact hcc (by rw [hc]; rfl)

theorem dropWhile_append_all {p : Char → Bool} {l₂ : List Char} :
    ∀ {l₁ : List Char}, (∀ c ∈ l₁, p c = true) →
      (l₁ ++ l₂).dropWhile p = l₂.dropWhile p := by
  intro l₁
  induction l₁ with
  | nil => intro _; rfl
  | cons c cs ih =>
    intro h
    rw [List.cons_append, List.dropWhile_cons, h c (List.mem_cons_self c cs)]
    simp only [if_true]
    exact ih (fun c' hc' => h c' (List.mem_cons_of_mem c hc'))

theorem pyDirname_append {root tail : PyStr} (hr : root ≠ [])
    (hlast : root.getLast? ≠ some '/') (ht : '/' ∉ tail) :
    pyDirname (root ++ '/' :: tail) = root := by
  obtain ⟨h1, rest, hrev⟩ : ∃ h1 rest, root.reverse = h1 :: rest := by
    cases hc : root.reverse with
    | nil => exact absurd (by simpa using congrArg List.reverse hc) hr
    | cons a as => exact ⟨a, as, rfl⟩
  have hh1 : h1 ≠ '/' := by
    intro hcc
    apply hlast
    rw [← List.head?_reverse, hrev, hcc]
    rfl
  have hrevapp : (root ++ '/' :: tail).reverse = tail.reverse ++ '/' :: root.reverse := by
    rw [List.reverse_append, List.reverse_cons, List.append_assoc]
    rfl
  have htail : ∀ c ∈ tail.reverse, (!(c == '/')) = true := by
    intro c hc
    have : c ∈ tail := List.mem_reverse.mp hc
    cases hb : c == '/' with
    | false => rfl
    | true => exact absurd (eq_of_beq hb ▸ this) ht
  unfold pyDirname
  rw [hrevapp, dropWhile_append_all htail]
  rw [show ('/' :: root.reverse).dropWhile (fun c => !(c == '/')) = '/' :: root.reverse
    from rfl]
  have hall : (('/' :: root.reverse).all (fun c => c == '/')) = false := by
    rw [hrev]
    simp only [List.all_cons]
    rw [show (('/' : Char) == '/') = true from rfl]
    rw [show (h1 == '/') = false from beq_eq_false_iff_ne.mpr hh1]
    rfl
  rw [hall]
  simp only [Bool.false_eq_true, if_false]
  rw [show ('/' :: root.reverse).dropWhile (fun c => c == '/') =
    root.reverse.dropWhile (fun c => c == '/') from rfl]
  rw [hrev, List.dropWhile_cons, show (h1 == '/') = false from beq_eq_false_iff_ne.mpr hh1]
  simp only [Bool.false_eq_true, if_false]
  rw [← hrev, List.reverse_reverse]

/-- Claim C8: for every non-degenerate root directory (non-empty, not ending
in a separator), `save_figs` saves each figure to
`<root>/<name with slashes replaced by underscores>.<fmt>`, where `fmt`
defaults to `pdf`, and creates the enclosing directory (which is exactly
`root` whenever the format contains no separator). -/
theorem save_figs_spec {F : Type} (root : PyStr) (gen : List (PyStr × F))
    (fmt : Option PyStr) (hr : root ≠ []) (hlast : root.getLast? ≠ some '/')
    (hf : '/' ∉ fmt.getD "pdf".toList) :
    save_figs root gen fmt = gen.map (fun nf =>
      { dirMade := root,
        fileWritten := root ++ '/' :: (pyReplaceSlash nf.1 ++ '.' :: fmt.getD "pdf".toList) }) := by
  unfold save_figs
  apply List.map_congr_left
  intro nf _
  have hjoin : pyJoin root (pyReplaceSlash nf.1) = root ++ '/' :: pyReplaceSlash nf.1 := by
    unfold pyJoin
    rw [if_neg, if_neg hr, if_neg hlast]
    intro hh
    apply pyReplaceSlash_no_slash nf.1
    cases hl : pyReplaceSlash nf.1 with
    | nil => rw [hl] at hh; cases hh
    | cons a as =>
      rw [hl] at hh
      cases hh
      exact List.mem_cons_self _ _
  unfold save_fig
  rw [hjoin]
  have hpath : (root ++ '/' :: pyReplaceSlash nf.1) ++ '.' :: fmt.getD "pdf".toList =
      root ++ '/' :: (pyReplaceSlash nf.1 ++ '.' :: fmt.getD "pdf".toList) := by
    rw [List.append_assoc]
    rfl
  rw [hpath]
  have hnos : '/' ∉ pyReplaceSlash nf.1 ++ '.' :: fmt.getD "pdf".toList := by
    intro hmem
    rcases List.mem_append.mp hmem with h | h
    · exact pyReplaceSlash_no_slash nf.1 h
    · rcases List.mem_cons.mp h with h | h
      · cases h
      · exact hf h
  rw [pyDirname_append hr hlast hnos]

/-- Witness for C8 at a concrete input: figure `a/b` saved under root `out`
with the default format lands at `out/a_b.pdf` after `os.makedirs("out")`. -/
theorem save_figs_spec_witness :
    save_figs "out".toList [("a/b".toList, ())] none =
      [{ dirMade := "out".toList, fileWritten := "out/a_b.pdf".toList }] := by
  rw [save_figs_spec "out".toList [("a/b".toList, ())] none (by decide) (by decide) (by decide)]
  rfl

end Visualize
